import Mathlib

/-!
# Quiz command handlers (`cmds.js`)

A shallow embedding of the command handlers of the interactive quiz shell:
the identifier validator, the `show` / `delete` / `test` pipelines and the
`play` session.  Promise chains are unfolded into the sequence of observable
calls they make (`log`, `biglog`, `errorlog`, `rl.question`, `rl.prompt`), in
the order in which the callbacks run.  The method `toLowerCase` of the engine
is a parameter of the handlers that compare answers.
-/

namespace QuizCmds

/-! ## JavaScript values and strings -/

/-- White space and line terminators, the characters stripped by
`String.prototype.trim` and skipped by `parseInt`. -/
def isWhiteSpace (c : Char) : Bool :=
  c.toNat = 0x09 || c.toNat = 0x0A || c.toNat = 0x0B || c.toNat = 0x0C || c.toNat = 0x0D ||
  c.toNat = 0x20 || c.toNat = 0xA0 || c.toNat = 0x1680 ||
  (0x2000 ≤ c.toNat && c.toNat ≤ 0x200A) ||
  c.toNat = 0x2028 || c.toNat = 0x2029 || c.toNat = 0x202F || c.toNat = 0x205F ||
  c.toNat = 0x3000 || c.toNat = 0xFEFF

/-- Characters of a string with leading and trailing white space removed. -/
def trimChars (cs : List Char) : List Char :=
  (cs.dropWhile isWhiteSpace).rdropWhile isWhiteSpace

/-- The method `String.prototype.trim`. -/
def trim (s : String) : String := ⟨trimChars s.data⟩

/-- The lower-case mapping of the characters below U+0100: the capital
letters of Basic Latin (`A`–`Z`) and of Latin-1 (`À`–`Þ`, the sign `×`
excepted) lie 32 places before their small letters, and no other character of
that range changes. -/
def latinLowerChar (c : Char) : Char :=
  if (65 ≤ c.toNat ∧ c.toNat ≤ 90) ∨ (192 ≤ c.toNat ∧ c.toNat ≤ 222 ∧ c.toNat ≠ 215) then
    Char.ofNat (c.toNat + 32)
  else c

/-- The method `String.prototype.toLowerCase` on the strings whose characters
all lie below U+0100.  The method itself belongs to the JavaScript engine and
maps every cased letter of Unicode; the handlers below therefore take it as
the parameter `toLowerCase`, and this function serves to evaluate them on
sample strings of Basic Latin and Latin-1. -/
def latinLowerCase (s : String) : String := ⟨s.data.map latinLowerChar⟩

/-- Value of a character as a digit: `0`–`9`, then letters of either case
from ten upwards. -/
def digitValue (c : Char) : Option Nat :=
  if 48 ≤ c.toNat ∧ c.toNat ≤ 57 then some (c.toNat - 48)
  else if 97 ≤ c.toNat ∧ c.toNat ≤ 122 then some (c.toNat - 87)
  else if 65 ≤ c.toNat ∧ c.toNat ≤ 90 then some (c.toNat - 55)
  else none

/-- Whether a character is a digit of the given radix. -/
def isRadixDigit (radix : Nat) (c : Char) : Bool :=
  match digitValue c with
  | some d => decide (d < radix)
  | none => false

/-- The number written by a run of digits in the given radix. -/
def radixValue (radix : Nat) (ds : List Char) : Nat :=
  ds.foldl (fun acc c => acc * radix + (digitValue c).getD 0) 0

/-- The function `parseInt` on a string, radix argument absent: skip leading
white space, read an optional sign, switch to radix 16 after a `0x` / `0X`
prefix, and read the longest run of digits.  The result `none` stands for
`NaN`. -/
def parseIntChars (input : List Char) : Option Int :=
  let s := input.dropWhile isWhiteSpace
  let sign : Int := if s.head? = some '-' then -1 else 1
  let s := if s.head? = some '+' ∨ s.head? = some '-' then s.tail else s
  let rs : Nat × List Char :=
    match s with
    | '0' :: 'x' :: rest => (16, rest)
    | '0' :: 'X' :: rest => (16, rest)
    | _ => (10, s)
  let z := rs.2.takeWhile (isRadixDigit rs.1)
  if z = [] then none else some (sign * (radixValue rs.1 z : Int))

/-- The values a handler receives as its `id` argument: nothing, a token of
the command line, or an integer-valued number (the draw of `play`). -/
inductive Raw where
  | undefined
  | str (s : String)
  | num (n : Int)
  deriving DecidableEq, Repr

/-- Rendering of a value inside a template literal. -/
def Raw.text : Raw → String
  | .undefined => "undefined"
  | .str s => s
  | .num n => toString n

/-- The function `parseInt` on a handler argument.  A number is first
converted to its decimal numeral, which is read back unchanged; the text
`undefined` has no leading digit. -/
def parseInt : Raw → Option Int
  | .undefined => none
  | .str s => parseIntChars s.data
  | .num n => some n

/-! ## Errors and the validator -/

deriving instance DecidableEq for Except

/-- The errors raised inside the handlers of `cmds.js`. -/
inductive CmdError where
  | missingParameter
  | notANumber
  | notFound (id : Raw)
  deriving DecidableEq, Repr

/-- The text carried by each error. -/
def CmdError.message : CmdError → String
  | .missingParameter => "Falta el parámetro <id>."
  | .notANumber => "El valor del parámetro <id> no es un número."
  | .notFound id => "No existe un quiz asociado al id=" ++ id.text ++ "."

/-- The function `validateId`: the promise is rejected when the argument is
undefined or does not parse, and resolved with the parsed integer otherwise. -/
def validateId (id : Raw) : Except CmdError Int :=
  if id = Raw.undefined then
    .error .missingParameter
  else
    match parseInt id with
    | none => .error .notANumber
    | some n => .ok n

/-! ## Quizzes, the store and the output -/

/-- A row of the quiz table. -/
structure Quiz where
  id : Int
  question : String
  answer : String
  deriving DecidableEq, Repr

/-- The observable calls of a handler: the three printing functions of
`./out` (colouring by `colorize` is left to the renderer), the text put to
the user by `rl.question`, and `rl.prompt()`. -/
inductive Event where
  | log (text : String) (color : Option String)
  | biglog (text : String) (color : String)
  | errorlog (text : String)
  | question (text : String)
  | prompt
  deriving DecidableEq, Repr

/-- Modelled from the spec: `findById(id) -> quiz | none` of the quiz store
(`models.quiz.findByPk`, defined in `./model`): the row with that key. -/
def findByPk (rows : List Quiz) (id : Int) : Option Quiz :=
  rows.find? (fun q => decide (q.id = id))

/-- Modelled from the spec: `count() -> integer` of the quiz store, the
number of rows. -/
def count (rows : List Quiz) : Nat := rows.length

/-- An integer numeral: an optional sign followed by decimal digits and
nothing else. -/
def integerNumeral (cs : List Char) : Option Int :=
  let sd : Int × List Char :=
    match cs with
    | '-' :: rest => (-1, rest)
    | '+' :: rest => (1, rest)
    | _ => (1, cs)
  if sd.2 ≠ [] ∧ sd.2.all (isRadixDigit 10) = true then
    some (sd.1 * (radixValue 10 sd.2 : Int))
  else none

/-- Modelled from the spec: the key that the quiz store reads in the value
of a `where: {id}` clause.  The spec gives `destroy(id)` for an integer id;
the handler passes the value of its own argument, which the store compares
with its integer key column as it is written, without the prefix parsing of
`parseInt`: a number denotes itself, a text denotes a key only when the whole
text is an integer numeral. -/
def whereKey : Raw → Option Int
  | .undefined => none
  | .str s => integerNumeral s.data
  | .num n => some n

/-- Modelled from the spec: `destroy(id)` of the quiz store
(`models.quiz.destroy({where: {id}})`), which removes the quiz whose key is
the value of the clause. -/
def destroy (rows : List Quiz) (id : Raw) : List Quiz :=
  rows.filter (fun q => decide (whereKey id ≠ some q.id))

/-! ## The handlers `show`, `delete` and `test` -/

/-- The handler `showCmd`: the calls made for argument `id` on the table
`rows`. -/
def showCmd (rows : List Quiz) (id : Raw) : List Event :=
  match validateId id with
  | .error e => [.errorlog e.message, .prompt]
  | .ok n =>
    match findByPk rows n with
    | none => [.errorlog (CmdError.notFound id).message, .prompt]
    | some quiz =>
      [.log (" [" ++ toString quiz.id ++ "]:  " ++ quiz.question ++ " => " ++ quiz.answer) none,
       .prompt]

/-- The handler `deleteCmd`: the table it leaves and the calls it makes.  The
`id` handed to `destroy` is the argument of the handler; the validated number
is bound only inside the callback that calls `findByPk`. -/
def deleteCmd (rows : List Quiz) (id : Raw) : List Quiz × List Event :=
  match validateId id with
  | .error e => (rows, [.errorlog e.message, .prompt])
  | .ok n =>
    match findByPk rows n with
    | none => (rows, [.errorlog (CmdError.notFound id).message, .prompt])
    | some _ => (destroy rows id, [.prompt])

/-- The comparison made on an answer returned by `makeQuestion`:
`(answer || "").toLowerCase().trim() === quiz.answer.toLowerCase()`; the
alternative `""` is taken only by the empty answer, which it equals.  The
parameter `toLowerCase` is the method `String.prototype.toLowerCase` of the
engine. -/
def isCorrect (toLowerCase : String → String) (answer stored : String) : Bool :=
  trim (toLowerCase answer) == toLowerCase stored

/-- The banner printed for an answer typed in by the user: `makeQuestion`
resolves with the trimmed line, which is then compared. -/
def verdict (toLowerCase : String → String) (reply : String) (quiz : Quiz) : Event :=
  if isCorrect toLowerCase (trim reply) quiz.answer = true then .biglog "CORRECTO" "green"
  else .biglog "INCORRECTO" "red"

/-- The handler `testCmd` for argument `id`, the user typing `reply` when
asked.  The promise of `makeQuestion` is not returned to the outer chain, so
the outer `rl.prompt()` runs as soon as the question has been put, and the
inner one after the answer. -/
def testCmd (toLowerCase : String → String) (rows : List Quiz) (id : Raw) (reply : String) :
    List Event :=
  match validateId id with
  | .error e => [.errorlog e.message, .prompt]
  | .ok n =>
    match findByPk rows n with
    | none => [.errorlog (CmdError.notFound id).message, .prompt]
    | some quiz =>
      [.question (quiz.question ++ "? "), .prompt] ++ [verdict toLowerCase reply quiz, .prompt]

/-- Number of calls of `rl.prompt()` in a sequence of calls. -/
def promptCount (out : List Event) : Nat := out.count .prompt

/-! ## The handler `play` -/

/-- The function `Math.round`: the nearest integer, halves rounded up. -/
def mathRound (x : ℚ) : Int := ⌊x + 1 / 2⌋

/-- The candidate of a draw, `Math.round((Math.random()*(count-1))+1)`, for
the value `random` returned by `Math.random()`. -/
def draw (random : ℚ) (count : Nat) : Int :=
  mathRound (random * ((count : ℚ) - 1) + 1)

/-- What one run of the body of `playOne` consumes: the value returned by
`Math.random()` (a number of the interval from 0 to 1, 1 excluded) and the
line the user types if the run puts a question. -/
structure Turn where
  random : ℚ
  reply : String

/-- Where a session stands: `playing` while a call of `playOne` waits for the
store, `won` and `lost` after the final banners, `halted` when a rejected
promise ended the chain without a further call. -/
inductive Status where
  | playing
  | won
  | lost
  | halted
  deriving DecidableEq, Repr

/-- The variables captured by `playOne` (`toBeResolved`, `score`), the
progress of the session, the questions put so far (the id and whether the
answer was right) and the calls made so far. -/
structure Session where
  toBeResolved : List Int
  score : Nat
  status : Status
  asked : List (Int × Bool)
  out : List Event
  deriving DecidableEq, Repr

/-- A call `playOne()` up to the point where it returns to its caller,
followed by the calls `after` that the chain of the caller makes once it has
returned.  With nothing left to resolve the final messages and a prompt are
issued; otherwise `count()` is requested and the body continues in `resume`. -/
def playOne (s : Session) (after : List Event) : Session :=
  if s.toBeResolved.length = 0 then
    { s with
      status := .won
      out := s.out ++
        [.log "Enhorabuena, has terminado el juego\n" (some "green"),
         .log "Número de aciertos: " none,
         .biglog (toString s.score) "magenta",
         .prompt] ++ after }
  else
    { s with status := .playing, out := s.out ++ after }

/-- The rest of the body of `playOne`, run when `count()` has resolved: draw
a candidate, validate it and look it up; call `playOne` again when no quiz
has that id or when the id is no longer to be resolved; otherwise remove the
id, put the question and judge the answer.  Every run ends with the
`rl.prompt()` of its own chain, which is issued as soon as the callback has
returned, and a run that puts a question issues another one after the
answer. -/
def resume (toLowerCase : String → String) (rows : List Quiz) (s : Session) (t : Turn) :
    Session :=
  match s.status with
  | .won => s
  | .lost => s
  | .halted => s
  | .playing =>
    let id := draw t.random (count rows)
    match validateId (.num id) with
    | .error e => { s with status := .halted, out := s.out ++ [.errorlog e.message, .prompt] }
    | .ok n =>
      match findByPk rows n with
      | none => playOne s [.prompt]
      | some quiz =>
        if id ∈ s.toBeResolved then
          let s1 : Session :=
            { s with
              toBeResolved := s.toBeResolved.erase id
              out := s.out ++ [.question (quiz.question ++ "? "), .prompt] }
          if isCorrect toLowerCase (trim t.reply) quiz.answer = true then
            playOne
              { s1 with
                score := s1.score + 1
                asked := s1.asked ++ [(id, true)]
                out := s1.out ++
                  [.biglog "CORRECTO" "green",
                   .log ("Número de aciertos: " ++ toString (s1.score + 1)) none] }
              [.prompt]
          else
            { s1 with
              status := .lost
              asked := s1.asked ++ [(id, false)]
              out := s1.out ++
                [.biglog "INCORRECTO" "red",
                 .log "Fin del juego. Número de aciertos: " none,
                 .biglog (toString s1.score) "red",
                 .prompt] }
        else playOne s [.prompt]

/-- The session as `playCmd` sets it up: `findAll()` either yields the rows,
whose ids fill `toBeResolved`, or is rejected, in which case the message is
printed by the first `catch` and `toBeResolved` stays empty. -/
def load (fetched : Except String (List Quiz)) : Session :=
  match fetched with
  | .ok all =>
    { toBeResolved := all.map Quiz.id, score := 0, status := .playing, asked := [], out := [] }
  | .error msg =>
    { toBeResolved := [], score := 0, status := .playing, asked := [], out := [.errorlog msg] }

/-- The handler `playCmd`.  The argument `fetched` is the outcome of
`findAll()`, `rows` is the table read by the later `count()` and `findByPk`
calls (the same rows in a session whose fetch succeeded), and `turns` feeds
the successive runs of the body of `playOne`.  The first call of `playOne` is
followed by the `rl.prompt()` that closes the chain of `playCmd`. -/
def playCmd (toLowerCase : String → String) (fetched : Except String (List Quiz))
    (rows : List Quiz) (turns : List Turn) : Session :=
  turns.foldl (resume toLowerCase rows) (playOne (load fetched) [.prompt])

/-! ## Invariants of a session -/

/-- The bookkeeping of a session over a table of `n` rows: every id is either
still to be resolved or was asked, the score counts the right answers, a wrong
answer is the last one and ends the session, a won session has nothing left to
resolve and a session that goes on has something left. -/
structure Tally (n : Nat) (s : Session) : Prop where
  total : s.asked.length + s.toBeResolved.length = n
  verdicts : s.asked.map Prod.snd =
    List.replicate s.score true ++ (if s.status = .lost then [false] else [])
  settled : s.status = .won → s.toBeResolved = []
  pending : s.status = .playing → s.toBeResolved ≠ []
  live : s.status ≠ .halted

/-- No id occurs twice among the ids to be resolved and the ids asked. -/
structure NoRepeat (s : Session) : Prop where
  nodup : s.toBeResolved.Nodup
  askedNodup : (s.asked.map Prod.fst).Nodup
  fresh : ∀ id ∈ s.asked.map Prod.fst, id ∉ s.toBeResolved

/-! ## A sample table -/

/-- A table of two quizzes with the ids 1 and 2. -/
def capitals : List Quiz :=
  [⟨1, "Capital de Italia", "Roma"⟩, ⟨2, "Capital de Francia", "París"⟩]

/-! ## A session that wins -/

/-- A value of `Math.random()` for which the candidate drawn among `n` rows is
`id` (see `draw_hit`). -/
def hit (n : Nat) (id : Int) : ℚ := (2 * (id : ℚ) - 1) / (2 * (n : ℚ))

/-- One turn per quiz of the table, in the order of the table: the draw lands
on the quiz and the user types its stored answer. -/
def winningTurns (rows : List Quiz) : List Turn :=
  rows.map (fun q => ⟨hit (count rows) q.id, q.answer⟩)

/-! ## String lemmas -/

theorem isWhiteSpace_latinLowerChar (c : Char) : isWhiteSpace (latinLowerChar c) = isWhiteSpace c := by
  unfold latinLowerChar
  split
  · rename_i h
    have hc : isWhiteSpace c = false := by
      simp only [isWhiteSpace, Bool.or_eq_false_iff, Bool.and_eq_false_iff, decide_eq_false_iff_not]
      omega
    rw [hc]
    have hr : (65 ≤ c.toNat ∧ c.toNat ≤ 90) ∨ (192 ≤ c.toNat ∧ c.toNat ≤ 222) := by omega
    generalize c.toNat = n at hr
    rcases hr with ⟨h1, h2⟩ | ⟨h1, h2⟩ <;> interval_cases n <;> decide
  · rfl

theorem isWhiteSpace_comp_latinLowerChar : isWhiteSpace ∘ latinLowerChar = isWhiteSpace :=
  funext isWhiteSpace_latinLowerChar

theorem rdropWhile_map_latinLowerChar (cs : List Char) :
    (cs.map latinLowerChar).rdropWhile isWhiteSpace = (cs.rdropWhile isWhiteSpace).map latinLowerChar := by
  simp only [List.rdropWhile, ← List.map_reverse, List.dropWhile_map, isWhiteSpace_comp_latinLowerChar]

theorem trimChars_map_latinLowerChar (cs : List Char) :
    trimChars (cs.map latinLowerChar) = (trimChars cs).map latinLowerChar := by
  simp only [trimChars, List.dropWhile_map, isWhiteSpace_comp_latinLowerChar, rdropWhile_map_latinLowerChar]

theorem dropWhile_rdropWhile_of_head {p : Char → Bool} (m : List Char)
    (h : m.dropWhile p = m) : (m.rdropWhile p).dropWhile p = m.rdropWhile p := by
  cases hm : m.rdropWhile p with
  | nil => rfl
  | cons a t =>
    have hpre : a :: t <+: m := hm ▸ List.rdropWhile_prefix p m
    obtain ⟨u, hu⟩ := hpre
    subst hu
    have : p a = false := by
      by_contra hpa
      simp only [Bool.not_eq_false] at hpa
      have := congrArg List.length h
      simp only [List.cons_append, List.dropWhile_cons, hpa, if_true] at this
      have hle := (List.dropWhile_sublist p (l := t ++ u)).length_le
      simp only [List.length_cons] at this
      omega
    simp [List.dropWhile_cons, this]

theorem trimChars_idem (cs : List Char) : trimChars (trimChars cs) = trimChars cs := by
  unfold trimChars
  rw [dropWhile_rdropWhile_of_head _ (List.dropWhile_idempotent _ _), List.rdropWhile_idempotent]

theorem trim_trim (s : String) : trim (trim s) = trim s := by
  simp only [trim, trimChars_idem]

/-- Lower-casing and trimming commute on `latinLowerCase`: white space has no
case and no letter is lower-cased to white space. -/
theorem latinLowerCase_trim (s : String) :
    trim (latinLowerCase s) = latinLowerCase (trim s) := by
  simp only [trim, latinLowerCase, trimChars_map_latinLowerChar]

theorem isCorrect_trim_iff (toLowerCase : String → String)
    (htrim : ∀ s : String, trim (toLowerCase s) = toLowerCase (trim s)) (u stored : String) :
    isCorrect toLowerCase (trim u) stored = true ↔
      trim (toLowerCase u) = toLowerCase stored := by
  simp [isCorrect, ← htrim u, trim_trim]

/-! ## The draw and one run of `playOne` -/

theorem draw_zero (n : Nat) : draw 0 n = 1 := by
  simp only [draw, mathRound, zero_mul, zero_add]
  norm_num

theorem draw_one (r : ℚ) : draw r 1 = 1 := by
  simp only [draw, mathRound, Nat.cast_one, sub_self, mul_zero, zero_add]
  norm_num

theorem draw_le (r : ℚ) (n : Nat) (h0 : 0 ≤ r) (h1 : r < 1) (hn : 1 ≤ n) :
    1 ≤ draw r n ∧ draw r n ≤ n := by
  have hn1 : (0 : ℚ) ≤ (n : ℚ) - 1 := by
    have : (1 : ℚ) ≤ (n : ℚ) := by exact_mod_cast hn
    linarith
  have hmul : r * ((n : ℚ) - 1) ≤ (n : ℚ) - 1 := by nlinarith
  have hpos : 0 ≤ r * ((n : ℚ) - 1) := mul_nonneg h0 hn1
  unfold draw mathRound
  constructor
  · apply Int.le_floor.mpr
    push_cast
    linarith
  · have : ⌊r * ((n : ℚ) - 1) + 1 + 1 / 2⌋ < (n : Int) + 1 := by
      apply Int.floor_lt.mpr
      push_cast
      linarith
    omega

theorem validateId_num (n : Int) : validateId (.num n) = .ok n := by
  simp [validateId, parseInt]

@[simp] theorem playOne_toBeResolved (s : Session) (after : List Event) :
    (playOne s after).toBeResolved = s.toBeResolved := by
  unfold playOne; split <;> rfl

@[simp] theorem playOne_score (s : Session) (after : List Event) :
    (playOne s after).score = s.score := by
  unfold playOne; split <;> rfl

@[simp] theorem playOne_asked (s : Session) (after : List Event) :
    (playOne s after).asked = s.asked := by
  unfold playOne; split <;> rfl

theorem playOne_status (s : Session) (after : List Event) :
    (playOne s after).status = if s.toBeResolved = [] then .won else .playing := by
  unfold playOne
  by_cases h : s.toBeResolved = []
  · simp [h]
  · have : s.toBeResolved.length ≠ 0 := fun e => h (List.length_eq_zero.mp e)
    simp [h, this]

/-- The four ways in which one run of the body of `playOne` can end. -/
theorem resume_cases (toLowerCase : String → String) (rows : List Quiz) (s : Session) (t : Turn) :
    (resume toLowerCase rows s t = s ∧ s.status ≠ .playing) ∨
    (s.status = .playing ∧ resume toLowerCase rows s t = playOne s [.prompt]) ∨
    (s.status = .playing ∧ ∃ id quiz, id ∈ s.toBeResolved ∧
      (resume toLowerCase rows s t).toBeResolved = s.toBeResolved.erase id ∧
      (resume toLowerCase rows s t).asked = s.asked ++ [(id, true)] ∧
      (resume toLowerCase rows s t).score = s.score + 1 ∧
      (resume toLowerCase rows s t).status =
        (if s.toBeResolved.erase id = [] then Status.won else Status.playing) ∧
      findByPk rows id = some quiz ∧ isCorrect toLowerCase (trim t.reply) quiz.answer = true) ∨
    (s.status = .playing ∧ ∃ id quiz, id ∈ s.toBeResolved ∧
      (resume toLowerCase rows s t).toBeResolved = s.toBeResolved.erase id ∧
      (resume toLowerCase rows s t).asked = s.asked ++ [(id, false)] ∧
      (resume toLowerCase rows s t).score = s.score ∧
      (resume toLowerCase rows s t).status = .lost ∧
      findByPk rows id = some quiz ∧ isCorrect toLowerCase (trim t.reply) quiz.answer = false) := by
  unfold resume
  cases hs : s.status with
  | won => left; simp
  | lost => left; simp
  | halted => left; simp
  | playing =>
    right
    simp only [validateId_num]
    cases hq : findByPk rows (draw t.random (count rows)) with
    | none => left; simp
    | some quiz =>
      by_cases hm : draw t.random (count rows) ∈ s.toBeResolved
      · by_cases hc : isCorrect toLowerCase (trim t.reply) quiz.answer = true
        · right; left
          refine ⟨trivial, draw t.random (count rows), quiz, hm, ?_⟩
          simp [hm, hc, hq, playOne_status]
        · right; right
          refine ⟨trivial, draw t.random (count rows), quiz, hm, ?_⟩
          simp [hm, hc, hq]
      · left; simp [hm]

/-! ### The invariants are kept -/

theorem tally_playOne {n : Nat} {s : Session} (after : List Event)
    (total : s.asked.length + s.toBeResolved.length = n)
    (verdicts : s.asked.map Prod.snd = List.replicate s.score true) :
    Tally n (playOne s after) := by
  have hst := playOne_status s after
  constructor
  · simpa using total
  · by_cases h : s.toBeResolved = [] <;> simp [hst, h, verdicts]
  · intro hw
    by_cases h : s.toBeResolved = []
    · simpa using h
    · simp [hst, h] at hw
  · intro hp
    by_cases h : s.toBeResolved = []
    · simp [hst, h] at hp
    · simpa using h
  · by_cases h : s.toBeResolved = [] <;> simp [hst, h]

theorem tally_start (rows : List Quiz) (after : List Event) :
    Tally rows.length (playOne (load (.ok rows)) after) :=
  tally_playOne after (by simp [load]) (by simp [load])

theorem tally_resume (toLowerCase : String → String)
    {n : Nat} (rows : List Quiz) {s : Session} (t : Turn)
    (h : Tally n s) : Tally n (resume toLowerCase rows s t) := by
  rcases resume_cases toLowerCase rows s t with ⟨e, _⟩ | ⟨hp, e⟩ | ⟨hp, id, quiz, hm, h1, h2, h3, h4, _⟩ |
      ⟨hp, id, quiz, hm, h1, h2, h3, h4, _⟩
  · rw [e]; exact h
  · rw [e]
    exact tally_playOne _ h.total (by simpa [hp] using h.verdicts)
  · have hv := h.verdicts
    simp only [hp, reduceCtorEq, if_false, List.append_nil] at hv
    have hlen := List.length_erase_of_mem hm
    have hpos : 0 < s.toBeResolved.length := List.length_pos_of_mem hm
    constructor
    · rw [h1, h2, hlen, List.length_append, List.length_singleton]
      have := h.total
      omega
    · rw [h2, h3, h4]
      by_cases he : s.toBeResolved.erase id = [] <;>
        simp [he, hv, List.replicate_succ']
    · intro hw
      rw [h4] at hw
      rw [h1]
      by_contra hne
      simp [hne] at hw
    · intro hw
      rw [h4] at hw
      rw [h1]
      intro he
      simp [he] at hw
    · rw [h4]
      by_cases he : s.toBeResolved.erase id = [] <;> simp [he]
  · have hv := h.verdicts
    simp only [hp, reduceCtorEq, if_false, List.append_nil] at hv
    have hlen := List.length_erase_of_mem hm
    have hpos : 0 < s.toBeResolved.length := List.length_pos_of_mem hm
    constructor
    · rw [h1, h2, hlen, List.length_append, List.length_singleton]
      have := h.total
      omega
    · rw [h2, h3, h4]
      simp [hv]
    · intro hw
      rw [h4] at hw
      cases hw
    · intro hw
      rw [h4] at hw
      cases hw
    · rw [h4]
      simp

theorem tally_foldl (toLowerCase : String → String)
    {n : Nat} (rows : List Quiz) (turns : List Turn) {s : Session}
    (h : Tally n s) : Tally n (turns.foldl (resume toLowerCase rows) s) := by
  induction turns generalizing s with
  | nil => exact h
  | cons t ts ih => exact ih (tally_resume toLowerCase rows t h)

theorem tally_playCmd (toLowerCase : String → String) (rows : List Quiz) (turns : List Turn) :
    Tally rows.length (playCmd toLowerCase (.ok rows) rows turns) :=
  tally_foldl toLowerCase rows turns (tally_start rows _)

theorem noRepeat_resume (toLowerCase : String → String) (rows : List Quiz) {s : Session} (t : Turn)
    (h : NoRepeat s) : NoRepeat (resume toLowerCase rows s t) := by
  have key : ∀ (id : Int) (ok : Bool), id ∈ s.toBeResolved →
      (resume toLowerCase rows s t).toBeResolved = s.toBeResolved.erase id →
      (resume toLowerCase rows s t).asked = s.asked ++ [(id, ok)] → NoRepeat (resume toLowerCase rows s t) := by
    intro id ok hm h1 h2
    have hnew : id ∉ s.asked.map Prod.fst := fun hin => h.fresh id hin hm
    constructor
    · rw [h1]; exact h.nodup.erase id
    · rw [h2, List.map_append, List.map_singleton]
      exact List.Nodup.append h.askedNodup (List.nodup_singleton _)
        (by simpa [List.disjoint_singleton] using hnew)
    · intro x hx
      rw [h2, List.map_append, List.map_singleton, List.mem_append, List.mem_singleton] at hx
      rw [h1]
      rcases hx with hx | hx
      · exact fun hin => h.fresh x hx (List.mem_of_mem_erase hin)
      · subst hx
        exact h.nodup.not_mem_erase
  rcases resume_cases toLowerCase rows s t with ⟨e, _⟩ | ⟨_, e⟩ | ⟨_, id, _, hm, h1, h2, _⟩ |
      ⟨_, id, _, hm, h1, h2, _⟩
  · rw [e]; exact h
  · rw [e]
    exact ⟨by simpa using h.nodup, by simpa using h.askedNodup, by simpa using h.fresh⟩
  · exact key id true hm h1 h2
  · exact key id false hm h1 h2

theorem noRepeat_foldl (toLowerCase : String → String)
    (rows : List Quiz) (turns : List Turn) {s : Session}
    (h : NoRepeat s) : NoRepeat (turns.foldl (resume toLowerCase rows) s) := by
  induction turns generalizing s with
  | nil => exact h
  | cons t ts ih => exact ih (noRepeat_resume toLowerCase rows t h)

theorem noRepeat_playCmd (toLowerCase : String → String) (rows : List Quiz) (turns : List Turn)
    (h : (rows.map Quiz.id).Nodup) : NoRepeat (playCmd toLowerCase (.ok rows) rows turns) := by
  apply noRepeat_foldl
  exact ⟨by simpa [load] using h, by simp [load], by simp [load]⟩

theorem resume_of_not_playing (toLowerCase : String → String)
    (rows : List Quiz) (s : Session) (t : Turn)
    (h : s.status ≠ .playing) : resume toLowerCase rows s t = s := by
  unfold resume
  cases hs : s.status <;> simp_all

theorem foldl_resume_of_not_playing (toLowerCase : String → String)
    (rows : List Quiz) (turns : List Turn) (s : Session)
    (h : s.status ≠ .playing) : turns.foldl (resume toLowerCase rows) s = s := by
  induction turns with
  | nil => rfl
  | cons t ts ih => rw [List.foldl_cons, resume_of_not_playing toLowerCase rows s t h, ih]

theorem playCmd_append (toLowerCase : String → String)
    (fetched : Except String (List Quiz)) (rows : List Quiz)
    (turns more : List Turn) :
    playCmd toLowerCase fetched rows (turns ++ more) =
      more.foldl (resume toLowerCase rows) (playCmd toLowerCase fetched rows turns) := by
  simp [playCmd, List.foldl_append]

theorem replicate_true_false_inj : ∀ (a b : Nat) (t : List Bool),
    List.replicate a true ++ false :: t = List.replicate b true ++ [false] → a = b ∧ t = []
  | 0, 0, t, h => by simpa using h
  | 0, b + 1, t, h => by simp [List.replicate_succ] at h
  | a + 1, 0, t, h => by simp [List.replicate_succ] at h
  | a + 1, b + 1, t, h => by
    simp only [List.replicate_succ, List.cons_append, List.cons.injEq, true_and] at h
    have := replicate_true_false_inj a b t h
    exact ⟨by omega, this.2⟩

theorem replicate_true_ne (a b : Nat) (t : List Bool) :
    List.replicate a true ++ false :: t ≠ List.replicate b true := by
  intro h
  have hmem : false ∈ List.replicate b true := by
    rw [← h]; simp
  simp [List.mem_replicate] at hmem

/-! ## The handlers `show`, `delete` and `test`: lemmas -/

theorem showCmd_prompt_once (rows : List Quiz) (id : Raw) :
    promptCount (showCmd rows id) = 1 := by
  unfold showCmd promptCount
  cases validateId id with
  | error e => simp
  | ok n => cases h : findByPk rows n <;> simp [h]

theorem deleteCmd_prompt_once (rows : List Quiz) (id : Raw) :
    promptCount (deleteCmd rows id).2 = 1 := by
  unfold deleteCmd promptCount
  cases validateId id with
  | error e => simp
  | ok n => cases h : findByPk rows n <;> simp [h]

theorem verdict_ne_prompt (toLowerCase : String → String) (reply : String) (quiz : Quiz) :
    verdict toLowerCase reply quiz ≠ .prompt := by
  unfold verdict
  split <;> simp

theorem testCmd_prompt_count (toLowerCase : String → String)
    (rows : List Quiz) (id : Raw) (reply : String) :
    promptCount (testCmd toLowerCase rows id reply) =
      match validateId id with
      | .error _ => 1
      | .ok n => if (findByPk rows n).isSome then 2 else 1 := by
  unfold testCmd promptCount
  cases validateId id with
  | error e => simp
  | ok n =>
    cases h : findByPk rows n with
    | none => simp [h]
    | some quiz =>
      have := verdict_ne_prompt toLowerCase reply quiz
      simp [h, List.count_cons, this]

theorem findByPk_destroy_self (rows : List Quiz) (id : Raw) (n : Int)
    (hk : whereKey id = some n) : findByPk (destroy rows id) n = none := by
  unfold findByPk destroy
  rw [List.find?_filter, List.find?_eq_none]
  intro q _
  simp only [hk, ne_eq, Option.some.injEq, Bool.and_eq_true, decide_eq_true_eq, not_and]
  intro h1 h2
  exact h1 h2.symm

theorem findByPk_destroy_other (rows : List Quiz) (id : Raw) (n m : Int)
    (hk : whereKey id = some n) (hm : m ≠ n) :
    findByPk (destroy rows id) m = findByPk rows m := by
  unfold findByPk destroy
  rw [List.find?_filter]
  congr 1
  funext q
  by_cases h : q.id = m
  · have : ¬ n = q.id := fun e => hm (by rw [e, h])
    simp [hk, h, this, hm.symm, hm]
  · simp [h]

theorem deleteCmd_removes (rows : List Quiz) (id : Raw) (n : Int)
    (hv : validateId id = .ok n) (hk : whereKey id = some n)
    (hex : (findByPk rows n).isSome = true) :
    showCmd (deleteCmd rows id).1 id = [.errorlog (CmdError.notFound id).message, .prompt] ∧
    ∀ m : Int, m ≠ n → findByPk (deleteCmd rows id).1 m = findByPk rows m := by
  obtain ⟨q, hq⟩ := Option.isSome_iff_exists.mp hex
  have hd : (deleteCmd rows id).1 = destroy rows id := by
    simp [deleteCmd, hv, hq]
  rw [hd]
  constructor
  · simp [showCmd, hv, findByPk_destroy_self rows id n hk]
  · intro m hm
    exact findByPk_destroy_other rows id n m hk hm

theorem play_won_score (toLowerCase : String → String) (rows : List Quiz) (turns : List Turn)
    (hw : (playCmd toLowerCase (.ok rows) rows turns).status = .won) :
    (playCmd toLowerCase (.ok rows) rows turns).score = rows.length ∧
    (playCmd toLowerCase (.ok rows) rows turns).asked.length = rows.length ∧
    ∀ a ∈ (playCmd toLowerCase (.ok rows) rows turns).asked, a.2 = true := by
  have hT := tally_playCmd toLowerCase rows turns
  have hv := hT.verdicts
  have he := hT.settled hw
  have ht := hT.total
  rw [hw] at hv
  simp only [reduceCtorEq, if_false, List.append_nil] at hv
  have hlen := congrArg List.length hv
  simp only [List.length_map, List.length_replicate] at hlen
  rw [he, List.length_nil, Nat.add_zero] at ht
  refine ⟨by omega, ht, ?_⟩
  intro a ha
  have : a.2 ∈ List.replicate (playCmd toLowerCase (.ok rows) rows turns).score true := by
    rw [← hv]; exact List.mem_map_of_mem _ ha
  exact (List.mem_replicate.mp this).2

/-! ## Sample sessions -/

theorem draw_half_two : draw (1 / 2) 2 = 2 := by
  simp only [draw, mathRound]
  norm_num

theorem capitals_lost :
    playCmd latinLowerCase (.ok capitals) capitals [⟨0, " roma"⟩, ⟨1 / 2, "Lyon"⟩] =
      { toBeResolved := [], score := 1, status := .lost, asked := [(1, true), (2, false)],
        out := [.prompt, .question "Capital de Italia? ", .prompt, .biglog "CORRECTO" "green",
          .log "Número de aciertos: 1" none, .prompt, .question "Capital de Francia? ", .prompt,
          .biglog "INCORRECTO" "red", .log "Fin del juego. Número de aciertos: " none,
          .biglog "1" "red", .prompt] } := by
  simp only [playCmd, List.foldl_cons, List.foldl_nil]
  have h0 : playOne (load (.ok capitals)) [.prompt] =
      { toBeResolved := [1, 2], score := 0, status := .playing, asked := [], out := [.prompt] } := by
    decide
  rw [h0]
  have h1 : resume latinLowerCase capitals
      { toBeResolved := [1, 2], score := 0, status := .playing, asked := [], out := [.prompt] }
      ⟨0, " roma"⟩ =
      { toBeResolved := [2], score := 1, status := .playing, asked := [(1, true)],
        out := [.prompt, .question "Capital de Italia? ", .prompt, .biglog "CORRECTO" "green",
          .log "Número de aciertos: 1" none, .prompt] } := by
    simp only [resume, draw_zero]
    decide
  rw [h1]
  have hc : count capitals = 2 := rfl
  simp only [resume, hc, draw_half_two]
  decide

/-! ## A table without gaps can be won -/

/-- The value chosen by `hit` is a possible value of `Math.random()`. -/
theorem hit_range (n : Nat) (id : Int) (h1 : 1 ≤ id) (h2 : id ≤ n) :
    0 ≤ hit n id ∧ hit n id < 1 := by
  have hn : (0 : ℚ) < 2 * (n : ℚ) := by
    have : (1 : ℚ) ≤ (n : ℚ) := by exact_mod_cast (by omega : (1 : Int) ≤ n)
    linarith
  have hid1 : (1 : ℚ) ≤ (id : ℚ) := by exact_mod_cast h1
  have hid2 : (id : ℚ) ≤ (n : ℚ) := by exact_mod_cast h2
  unfold hit
  constructor
  · apply div_nonneg <;> linarith
  · rw [div_lt_one hn]; linarith

/-- With the value chosen by `hit` the candidate of the draw is the given id. -/
theorem draw_hit (n : Nat) (id : Int) (h1 : 1 ≤ id) (h2 : id ≤ n) :
    draw (hit n id) n = id := by
  have hn : (0 : ℚ) < 2 * (n : ℚ) := by
    have : (1 : ℚ) ≤ (n : ℚ) := by exact_mod_cast (by omega : (1 : Int) ≤ n)
    linarith
  have hid1 : (1 : ℚ) ≤ (id : ℚ) := by exact_mod_cast h1
  have hid2 : (id : ℚ) ≤ (n : ℚ) := by exact_mod_cast h2
  have key : hit n id * ((n : ℚ) - 1) + 1 + 1 / 2 =
      (id : ℚ) + (2 * (n : ℚ) - 2 * (id : ℚ) + 1) / (2 * (n : ℚ)) := by
    unfold hit
    field_simp
    ring
  unfold draw mathRound
  rw [key, Int.floor_eq_iff]
  constructor
  · have : 0 ≤ (2 * (n : ℚ) - 2 * (id : ℚ) + 1) / (2 * (n : ℚ)) := by
      apply div_nonneg <;> linarith
    linarith
  · have : (2 * (n : ℚ) - 2 * (id : ℚ) + 1) / (2 * (n : ℚ)) < 1 := by
      rw [div_lt_one hn]; linarith
    linarith

theorem findByPk_of_mem (rows : List Quiz) (q : Quiz) (hq : q ∈ rows)
    (hid : (rows.map Quiz.id).Nodup) : findByPk rows q.id = some q := by
  induction rows with
  | nil => cases hq
  | cons a t ih =>
    simp only [List.map_cons, List.nodup_cons] at hid
    unfold findByPk
    rw [List.find?_cons]
    rcases List.mem_cons.mp hq with e | hm
    · subst e; simp
    · have hne : a.id ≠ q.id := fun e => hid.1 (e ▸ List.mem_map_of_mem Quiz.id hm)
      simp only [hne, decide_False]
      exact ih hm hid.2

theorem winning_fold (toLowerCase : String → String) (rows : List Quiz)
    (hid : (rows.map Quiz.id).Nodup)
    (hrange : ∀ q ∈ rows, 1 ≤ q.id ∧ q.id ≤ (rows.length : Int))
    (hans : ∀ q ∈ rows, isCorrect toLowerCase (trim q.answer) q.answer = true) :
    ∀ (l : List Quiz) (s : Session), (∀ q ∈ l, q ∈ rows) → (l.map Quiz.id).Nodup →
      s.toBeResolved = l.map Quiz.id →
      s.status = (if l = [] then Status.won else Status.playing) →
      ((l.map (fun q => (⟨hit (count rows) q.id, q.answer⟩ : Turn))).foldl (resume toLowerCase rows) s).status
          = .won ∧
      ((l.map (fun q => (⟨hit (count rows) q.id, q.answer⟩ : Turn))).foldl (resume toLowerCase rows) s).score
          = s.score + l.length := by
  intro l
  induction l with
  | nil => intro s _ _ _ hs; simpa using hs
  | cons q l ih =>
    intro s hsub hnd htbr hs
    simp only [reduceCtorEq, if_false] at hs
    have hq : q ∈ rows := hsub q (List.mem_cons_self _ _)
    have hd : draw (hit (count rows) q.id) (count rows) = q.id :=
      draw_hit _ _ (hrange q hq).1 (hrange q hq).2
    have hf := findByPk_of_mem rows q hq hid
    have hm : q.id ∈ s.toBeResolved := by rw [htbr]; simp
    have he : s.toBeResolved.erase q.id = l.map Quiz.id := by
      rw [htbr, List.map_cons, List.erase_cons_head]
    simp only [List.map_cons, List.foldl_cons]
    have hr : resume toLowerCase rows s ⟨hit (count rows) q.id, q.answer⟩ =
        playOne
          { s with
            toBeResolved := l.map Quiz.id
            out := s.out ++ [.question (q.question ++ "? "), .prompt] ++
              [.biglog "CORRECTO" "green",
               .log ("Número de aciertos: " ++ toString (s.score + 1)) none]
            score := s.score + 1
            asked := s.asked ++ [(q.id, true)] }
          [.prompt] := by
      simp only [resume, hs, hd, validateId_num, hf, hm, if_true, hans q hq, he]
    rw [hr]
    have := ih (playOne
          { s with
            toBeResolved := l.map Quiz.id
            out := s.out ++ [.question (q.question ++ "? "), .prompt] ++
              [.biglog "CORRECTO" "green",
               .log ("Número de aciertos: " ++ toString (s.score + 1)) none]
            score := s.score + 1
            asked := s.asked ++ [(q.id, true)] }
          [.prompt])
      (fun x hx => hsub x (List.mem_cons_of_mem _ hx))
      (by simp only [List.map_cons, List.nodup_cons] at hnd; exact hnd.2)
      (by simp)
      (by rw [playOne_status]; simp)
    refine ⟨this.1, ?_⟩
    rw [this.2]
    simp only [playOne_score, List.length_cons]
    omega

/-- On a table whose ids are distinct and lie between 1 and the row count (no gap), and whose
stored answers are accepted when typed back, the session fed with `winningTurns` is won with
the score equal to the number of quizzes. -/
theorem play_can_be_won (toLowerCase : String → String) (rows : List Quiz)
    (hid : (rows.map Quiz.id).Nodup)
    (hrange : ∀ q ∈ rows, 1 ≤ q.id ∧ q.id ≤ (rows.length : Int))
    (hans : ∀ q ∈ rows, isCorrect toLowerCase (trim q.answer) q.answer = true) :
    (∀ t ∈ winningTurns rows, 0 ≤ t.random ∧ t.random < 1) ∧
    (playCmd toLowerCase (.ok rows) rows (winningTurns rows)).status = .won ∧
    (playCmd toLowerCase (.ok rows) rows (winningTurns rows)).score = rows.length := by
  constructor
  · intro t ht
    obtain ⟨q, hq, rfl⟩ := List.mem_map.mp ht
    exact hit_range _ _ (hrange q hq).1 (hrange q hq).2
  · have h := winning_fold toLowerCase rows hid hrange hans rows (playOne (load (.ok rows)) [.prompt])
      (fun q hq => hq) hid (by simp [load]) (by rw [playOne_status]; simp [load])
    unfold playCmd winningTurns
    refine ⟨h.1, ?_⟩
    rw [h.2]
    simp [load]

/-! ## The claims -/

/-- C1: `validateId` fails with MissingParameter exactly on the undefined argument, fails with
NotANumber exactly on a defined argument whose integer parse is NaN, and otherwise resolves to
the parsed integer; `"abc"` is rejected as not a number, `"7"` and `7` resolve to 7, and a
leading numeric prefix is accepted. -/
theorem validateId_contract (raw : Raw) :
    (validateId raw = .error .missingParameter ↔ raw = .undefined) ∧
    (validateId raw = .error .notANumber ↔ raw ≠ .undefined ∧ parseInt raw = none) ∧
    (∀ n : Int, validateId raw = .ok n ↔ raw ≠ .undefined ∧ parseInt raw = some n) ∧
    validateId (.str "abc") = .error .notANumber ∧
    validateId (.str "7") = .ok 7 ∧
    validateId (.num 7) = .ok 7 ∧
    validateId (.str "7abc") = .ok 7 := by
  refine ⟨?_, ?_, ?_, by decide, by decide, by decide, by decide⟩
  · unfold validateId
    by_cases h : raw = .undefined
    · simp [h]
    · cases hp : parseInt raw <;> simp [h]
  · unfold validateId
    by_cases h : raw = .undefined
    · simp [h]
    · cases hp : parseInt raw <;> simp [h]
  · intro n
    unfold validateId
    by_cases h : raw = .undefined
    · simp [h]
    · cases hp : parseInt raw <;> simp [h]

/-- C2 (as stated) fails: with the stored answer `"Madrid "` and the input `"madrid"` (strings of
Basic Latin, on which `latinLowerCase` is the method `toLowerCase` of the engine) the trimmed
lower-case forms coincide, yet `testCmd` prints the INCORRECT banner and not the CORRECT
one. -/
theorem testCmd_stored_answer_not_trimmed :
    trim (latinLowerCase "madrid") = trim (latinLowerCase "Madrid ") ∧
    Event.biglog "INCORRECTO" "red" ∈
      testCmd latinLowerCase [⟨1, "Capital de España", "Madrid "⟩] (.str "1") "madrid" ∧
    Event.biglog "CORRECTO" "green" ∉
      testCmd latinLowerCase [⟨1, "Capital de España", "Madrid "⟩] (.str "1") "madrid" := by
  decide

/-- C2 (amended): let `toLowerCase` be the lower-casing method of the engine, of which two
facts are used: it commutes with trimming (white space has no case and no letter is lower-cased
to white space), and on strings of characters below U+0100 it is `latinLowerCase`.  For an
argument that resolves to the quiz `quiz` and any input `u`, `testCmd` prints the CORRECT banner
exactly when the trimmed lower-case form of `u` equals the lower-case form of the stored answer
(which is not trimmed), and the INCORRECT banner exactly when it does not; the stored answer
`"Madrid"` with the input `" madrid "` is CORRECT, and with the input `"Paris"` it is
INCORRECT. -/
theorem testCmd_verdict (toLowerCase : String → String)
    (htrim : ∀ s : String, trim (toLowerCase s) = toLowerCase (trim s))
    (hlatin : ∀ s : String, (∀ c ∈ s.data, c.toNat < 256) → toLowerCase s = latinLowerCase s)
    (rows : List Quiz) (raw : Raw) (n : Int) (quiz : Quiz) (u : String)
    (hv : validateId raw = .ok n) (hq : findByPk rows n = some quiz) :
    (Event.biglog "CORRECTO" "green" ∈ testCmd toLowerCase rows raw u ↔
      trim (toLowerCase u) = toLowerCase quiz.answer) ∧
    (Event.biglog "INCORRECTO" "red" ∈ testCmd toLowerCase rows raw u ↔
      trim (toLowerCase u) ≠ toLowerCase quiz.answer) ∧
    Event.biglog "CORRECTO" "green" ∈
      testCmd toLowerCase [⟨1, "Capital de España", "Madrid"⟩] (.str "1") " madrid " ∧
    Event.biglog "INCORRECTO" "red" ∈
      testCmd toLowerCase [⟨1, "Capital de España", "Madrid"⟩] (.str "1") "Paris" := by
  have key : ∀ (rows : List Quiz) (raw : Raw) (n : Int) (quiz : Quiz) (u : String),
      validateId raw = .ok n → findByPk rows n = some quiz →
      (Event.biglog "CORRECTO" "green" ∈ testCmd toLowerCase rows raw u ↔
        trim (toLowerCase u) = toLowerCase quiz.answer) ∧
      (Event.biglog "INCORRECTO" "red" ∈ testCmd toLowerCase rows raw u ↔
        trim (toLowerCase u) ≠ toLowerCase quiz.answer) := by
    intro rows raw n quiz u hv hq
    have hc := isCorrect_trim_iff toLowerCase htrim u quiz.answer
    unfold testCmd
    simp only [hv, hq, verdict]
    by_cases h : isCorrect toLowerCase (trim u) quiz.answer = true
    · have h2 := hc.mp h
      simp [h, h2]
    · have h2 : ¬ trim (toLowerCase u) = toLowerCase quiz.answer := fun e => h (hc.mpr e)
      simp [h, h2]
  have hMadrid : toLowerCase "Madrid" = "madrid" := by
    rw [hlatin "Madrid" (by decide)]; decide
  have hmadrid : toLowerCase " madrid " = " madrid " := by
    rw [hlatin " madrid " (by decide)]; decide
  have hParis : toLowerCase "Paris" = "paris" := by
    rw [hlatin "Paris" (by decide)]; decide
  refine ⟨(key rows raw n quiz u hv hq).1, (key rows raw n quiz u hv hq).2, ?_, ?_⟩
  · refine (key [⟨1, "Capital de España", "Madrid"⟩] (.str "1") 1
      ⟨1, "Capital de España", "Madrid"⟩ " madrid " (by decide) (by decide)).1.mpr ?_
    rw [hmadrid, hMadrid]; decide
  · refine (key [⟨1, "Capital de España", "Madrid"⟩] (.str "1") 1
      ⟨1, "Capital de España", "Madrid"⟩ "Paris" (by decide) (by decide)).2.mpr ?_
    rw [hParis, hMadrid]; decide

/-- Witness for C2 (amended): `latinLowerCase` has the two properties, and on a table with the
stored answer `"Roma"` the input `"ROMA  "` is judged by comparing `"roma"` with `"roma"`. -/
theorem testCmd_verdict_witness :
    (∀ s : String, trim (latinLowerCase s) = latinLowerCase (trim s)) ∧
    validateId (.str "1") = .ok 1 ∧
    findByPk capitals 1 = some ⟨1, "Capital de Italia", "Roma"⟩ ∧
    (Event.biglog "CORRECTO" "green" ∈ testCmd latinLowerCase capitals (.str "1") "ROMA  " ↔
      trim (latinLowerCase "ROMA  ") = latinLowerCase "Roma") ∧
    (Event.biglog "INCORRECTO" "red" ∈ testCmd latinLowerCase capitals (.str "1") "ROMA  " ↔
      trim (latinLowerCase "ROMA  ") ≠ latinLowerCase "Roma") :=
  have h := testCmd_verdict latinLowerCase latinLowerCase_trim (fun _ _ => rfl) capitals
    (.str "1") 1 ⟨1, "Capital de Italia", "Roma"⟩ "ROMA  " (by decide) (by decide)
  ⟨latinLowerCase_trim, by decide, by decide, h.1, h.2.1⟩

/-- C4: in a session over any table, if the `k`-th question put (`1 ≤ k ≤ N`) is the first one
answered wrongly, the session is lost with score `k - 1`, exactly `k` questions were put, and
whatever is fed to it afterwards changes nothing: no further question is put. -/
theorem play_wrong_answer_ends (toLowerCase : String → String)
    (rows : List Quiz) (turns : List Turn) (k : Nat)
    (hk1 : 1 ≤ k) (_hkN : k ≤ rows.length)
    (hans : ((playCmd toLowerCase (.ok rows) rows turns).asked.map Prod.snd).take k =
      List.replicate (k - 1) true ++ [false]) :
    (playCmd toLowerCase (.ok rows) rows turns).status = .lost ∧
    (playCmd toLowerCase (.ok rows) rows turns).score = k - 1 ∧
    (playCmd toLowerCase (.ok rows) rows turns).asked.length = k ∧
    ∀ more : List Turn,
      playCmd toLowerCase (.ok rows) rows (turns ++ more) = playCmd toLowerCase (.ok rows) rows turns := by
  have hT := tally_playCmd toLowerCase rows turns
  have hsplit := List.take_append_drop k ((playCmd toLowerCase (.ok rows) rows turns).asked.map Prod.snd)
  rw [hans, List.append_assoc, List.singleton_append] at hsplit
  have hv := hT.verdicts
  by_cases hl : (playCmd toLowerCase (.ok rows) rows turns).status = .lost
  · rw [if_pos hl] at hv
    rw [hv] at hsplit
    obtain ⟨hk, _⟩ := replicate_true_false_inj _ _ _ hsplit
    have hlen := congrArg List.length hv
    simp only [List.length_map, List.length_append, List.length_replicate,
      List.length_singleton] at hlen
    refine ⟨hl, hk.symm, by omega, ?_⟩
    intro more
    rw [playCmd_append]
    exact foldl_resume_of_not_playing toLowerCase rows more _ (by rw [hl]; decide)
  · rw [if_neg hl, List.append_nil] at hv
    rw [hv] at hsplit
    exact absurd hsplit (replicate_true_ne _ _ _)

/-- Witness for C4: on the sample table the first question is answered rightly and the second
one wrongly. -/
theorem play_wrong_answer_ends_witness :
    1 ≤ 2 ∧ 2 ≤ capitals.length ∧
    ((playCmd latinLowerCase (.ok capitals) capitals
      [⟨0, " roma"⟩, ⟨1 / 2, "Lyon"⟩]).asked.map Prod.snd).take 2 =
      List.replicate (2 - 1) true ++ [false] ∧
    (playCmd latinLowerCase (.ok capitals) capitals
      [⟨0, " roma"⟩, ⟨1 / 2, "Lyon"⟩]).status = .lost ∧
    (playCmd latinLowerCase (.ok capitals) capitals
      [⟨0, " roma"⟩, ⟨1 / 2, "Lyon"⟩]).score = 2 - 1 ∧
    (playCmd latinLowerCase (.ok capitals) capitals
      [⟨0, " roma"⟩, ⟨1 / 2, "Lyon"⟩]).asked.length = 2 :=
  have h := play_wrong_answer_ends latinLowerCase capitals [⟨0, " roma"⟩, ⟨1 / 2, "Lyon"⟩] 2
    (by decide) (by decide) (by rw [capitals_lost]; decide)
  ⟨by decide, by decide, by rw [capitals_lost]; decide, h.1, h.2.1, h.2.2.1⟩

/-- C5: in a session over a table with distinct ids, `toBeResolved` starts as the ids of the
table and never holds an id twice, no id is asked twice, an id that was asked is no longer to be
resolved, and every run of the body of `playOne` either leaves `toBeResolved` and the questions
put unchanged (a retry) or puts the question of one id of `toBeResolved` and removes exactly that
id; in either case the new list is a sublist of the old one. -/
theorem play_no_id_twice (toLowerCase : String → String)
    (rows : List Quiz) (turns : List Turn) (t : Turn)
    (hid : (rows.map Quiz.id).Nodup) :
    (playCmd toLowerCase (.ok rows) rows []).toBeResolved = rows.map Quiz.id ∧
    (playCmd toLowerCase (.ok rows) rows turns).toBeResolved.Nodup ∧
    ((playCmd toLowerCase (.ok rows) rows turns).asked.map Prod.fst).Nodup ∧
    (∀ id ∈ (playCmd toLowerCase (.ok rows) rows turns).asked.map Prod.fst,
      id ∉ (playCmd toLowerCase (.ok rows) rows turns).toBeResolved) ∧
    (((playCmd toLowerCase (.ok rows) rows (turns ++ [t])).toBeResolved =
          (playCmd toLowerCase (.ok rows) rows turns).toBeResolved ∧
        (playCmd toLowerCase (.ok rows) rows (turns ++ [t])).asked =
          (playCmd toLowerCase (.ok rows) rows turns).asked) ∨
      ∃ (id : Int) (ok : Bool), id ∈ (playCmd toLowerCase (.ok rows) rows turns).toBeResolved ∧
        (playCmd toLowerCase (.ok rows) rows (turns ++ [t])).asked =
          (playCmd toLowerCase (.ok rows) rows turns).asked ++ [(id, ok)] ∧
        (playCmd toLowerCase (.ok rows) rows (turns ++ [t])).toBeResolved =
          (playCmd toLowerCase (.ok rows) rows turns).toBeResolved.erase id ∧
        id ∉ (playCmd toLowerCase (.ok rows) rows (turns ++ [t])).toBeResolved) ∧
    ((playCmd toLowerCase (.ok rows) rows (turns ++ [t])).toBeResolved).Sublist
      (playCmd toLowerCase (.ok rows) rows turns).toBeResolved := by
  have hN := noRepeat_playCmd toLowerCase rows turns hid
  have hstep : playCmd toLowerCase (.ok rows) rows (turns ++ [t]) =
      resume toLowerCase rows (playCmd toLowerCase (.ok rows) rows turns) t := by
    rw [playCmd_append]; rfl
  rw [hstep]
  generalize playCmd toLowerCase (.ok rows) rows turns = s at hN ⊢
  refine ⟨by simp [playCmd, load], hN.nodup, hN.askedNodup, hN.fresh, ?_⟩
  rcases resume_cases toLowerCase rows s t with ⟨e, _⟩ | ⟨_, e⟩ | ⟨_, id, _, hm, h1, h2, _⟩ |
      ⟨_, id, _, hm, h1, h2, _⟩
  · rw [e]; exact ⟨Or.inl ⟨rfl, rfl⟩, List.Sublist.refl _⟩
  · rw [e]; exact ⟨Or.inl ⟨by simp, by simp⟩, by simp⟩
  · refine ⟨Or.inr ⟨id, true, hm, h2, h1, ?_⟩, ?_⟩
    · rw [h1]; exact hN.nodup.not_mem_erase
    · rw [h1]; exact List.erase_sublist id _
  · refine ⟨Or.inr ⟨id, false, hm, h2, h1, ?_⟩, ?_⟩
    · rw [h1]; exact hN.nodup.not_mem_erase
    · rw [h1]; exact List.erase_sublist id _

/-- Witness for C5: the sample table has distinct ids; after the first question the list to
be resolved has no duplicate, and the run that puts the second question shrinks it. -/
theorem play_no_id_twice_witness :
    (capitals.map Quiz.id).Nodup ∧
    (playCmd latinLowerCase (.ok capitals) capitals [⟨0, " roma"⟩]).toBeResolved.Nodup ∧
    ((playCmd latinLowerCase (.ok capitals) capitals
      ([⟨0, " roma"⟩] ++ [⟨1 / 2, "Lyon"⟩])).toBeResolved).Sublist
      (playCmd latinLowerCase (.ok capitals) capitals [⟨0, " roma"⟩]).toBeResolved :=
  have h := play_no_id_twice latinLowerCase capitals [⟨0, " roma"⟩] ⟨1 / 2, "Lyon"⟩ (by decide)
  ⟨by decide, h.2.1, h.2.2.2.2.2⟩

/-- C3 on a table whose only quiz has id 2 (the quiz with id 1 was deleted): the candidate of
every draw is 1, no quiz has that id, and the session keeps drawing; whatever the draws and the
replies, it is never won, no question is put and the score stays 0. -/
theorem play_gap_never_won (toLowerCase : String → String) (turns : List Turn) :
    (playCmd toLowerCase (.ok [⟨2, "Capital de Francia", "París"⟩]) [⟨2, "Capital de Francia", "París"⟩]
      turns).status = .playing ∧
    (playCmd toLowerCase (.ok [⟨2, "Capital de Francia", "París"⟩]) [⟨2, "Capital de Francia", "París"⟩]
      turns).toBeResolved = [2] ∧
    (playCmd toLowerCase (.ok [⟨2, "Capital de Francia", "París"⟩]) [⟨2, "Capital de Francia", "París"⟩]
      turns).asked = [] ∧
    (playCmd toLowerCase (.ok [⟨2, "Capital de Francia", "París"⟩]) [⟨2, "Capital de Francia", "París"⟩]
      turns).score = 0 := by
  have hstep : ∀ (s : Session) (t : Turn),
      (s.status = .playing ∧ s.toBeResolved = [2] ∧ s.asked = [] ∧ s.score = 0) →
      ((resume toLowerCase [⟨2, "Capital de Francia", "París"⟩] s t).status = .playing ∧
        (resume toLowerCase [⟨2, "Capital de Francia", "París"⟩] s t).toBeResolved = [2] ∧
        (resume toLowerCase [⟨2, "Capital de Francia", "París"⟩] s t).asked = [] ∧
        (resume toLowerCase [⟨2, "Capital de Francia", "París"⟩] s t).score = 0) := by
    intro s t ⟨h1, h2, h3, h4⟩
    have hc : count [(⟨2, "Capital de Francia", "París"⟩ : Quiz)] = 1 := rfl
    have hf : findByPk [(⟨2, "Capital de Francia", "París"⟩ : Quiz)] 1 = none := by decide
    have hr : resume toLowerCase [⟨2, "Capital de Francia", "París"⟩] s t = playOne s [.prompt] := by
      simp only [resume, h1, hc, draw_one, validateId_num, hf]
    rw [hr]
    simp [playOne_status, h2, h3, h4]
  have hall : ∀ (turns : List Turn) (s : Session),
      (s.status = .playing ∧ s.toBeResolved = [2] ∧ s.asked = [] ∧ s.score = 0) →
      ((turns.foldl (resume toLowerCase [⟨2, "Capital de Francia", "París"⟩]) s).status = .playing ∧
        (turns.foldl (resume toLowerCase [⟨2, "Capital de Francia", "París"⟩]) s).toBeResolved = [2] ∧
        (turns.foldl (resume toLowerCase [⟨2, "Capital de Francia", "París"⟩]) s).asked = [] ∧
        (turns.foldl (resume toLowerCase [⟨2, "Capital de Francia", "París"⟩]) s).score = 0) := by
    intro turns
    induction turns with
    | nil => intro s h; exact h
    | cons t ts ih => intro s h; exact ih _ (hstep s t h)
  exact hall turns _ (by decide)

/-- C6 on the success path of `testCmd`: for a table holding quiz 1 and the argument `"1"`,
`rl.prompt()` is called twice, once as soon as the question is put and once after the answer,
whatever the lower-casing of the engine does; with the reply `"roma"` (Basic Latin, evaluated
with `latinLowerCase`) the calls are the question, a prompt, the CORRECT banner and a prompt.
`showCmd` and `deleteCmd` on the same argument call `rl.prompt()` once. -/
theorem testCmd_prompts_twice (toLowerCase : String → String) :
    testCmd latinLowerCase [⟨1, "Capital de Italia", "Roma"⟩] (.str "1") "roma" =
      [.question "Capital de Italia? ", .prompt, .biglog "CORRECTO" "green", .prompt] ∧
    promptCount (testCmd latinLowerCase [⟨1, "Capital de Italia", "Roma"⟩] (.str "1") "roma") = 2 ∧
    promptCount (testCmd toLowerCase [⟨1, "Capital de Italia", "Roma"⟩] (.str "1") "roma") = 2 ∧
    promptCount (showCmd [⟨1, "Capital de Italia", "Roma"⟩] (.str "1")) = 1 ∧
    promptCount (deleteCmd [⟨1, "Capital de Italia", "Roma"⟩] (.str "1")).2 = 1 := by
  refine ⟨by decide, by decide, ?_, by decide, by decide⟩
  rw [testCmd_prompt_count]
  decide

/-- C7 when `findAll()` is rejected: the message is printed, and `playOne` is still called with
nothing to resolve, so the session is won at once: the congratulation and the score banner 0
are printed and `rl.prompt()` is called twice, whatever the table and the later input. -/
theorem playCmd_fetch_rejected (toLowerCase : String → String)
    (msg : String) (rows : List Quiz) (turns : List Turn) :
    (playCmd toLowerCase (.error msg) rows turns).status = .won ∧
    (playCmd toLowerCase (.error msg) rows turns).asked = [] ∧
    (playCmd toLowerCase (.error msg) rows turns).out =
      [.errorlog msg,
       .log "Enhorabuena, has terminado el juego\n" (some "green"),
       .log "Número de aciertos: " none,
       .biglog "0" "magenta",
       .prompt,
       .prompt] := by
  have h0 : playOne (load (.error msg)) [.prompt] =
      { toBeResolved := [], score := 0, status := .won, asked := [],
        out := [.errorlog msg,
          .log "Enhorabuena, has terminado el juego\n" (some "green"),
          .log "Número de aciertos: " none,
          .biglog "0" "magenta", .prompt, .prompt] } := by
    simp [playOne, load]
    rfl
  unfold playCmd
  rw [h0, foldl_resume_of_not_playing toLowerCase rows turns _ (by simp)]
  exact ⟨rfl, rfl, rfl⟩

/-- C8 on the argument `"7abc"`: it validates to 7 and quiz 7 exists, but `destroy` is handed
the argument itself, which is not the key of any row; the table is left as it was and a
subsequent `showCmd` on the same argument prints the quiz instead of reporting NotFound. -/
theorem deleteCmd_keeps_quiz :
    validateId (.str "7abc") = .ok 7 ∧
    findByPk [⟨7, "Capital de Italia", "Roma"⟩] 7 = some ⟨7, "Capital de Italia", "Roma"⟩ ∧
    deleteCmd [⟨7, "Capital de Italia", "Roma"⟩] (.str "7abc") =
      ([⟨7, "Capital de Italia", "Roma"⟩], [.prompt]) ∧
    showCmd (deleteCmd [⟨7, "Capital de Italia", "Roma"⟩] (.str "7abc")).1 (.str "7abc") =
      [.log " [7]:  Capital de Italia => Roma" none, .prompt] := by
  decide

/-- C9 on a table with a single quiz: whatever the lower-casing of the engine does, the session
starts with a call of `rl.prompt()` before the draw and another one right after the question is
put, while the answer is awaited.  With the right reply `"roma"` (Basic Latin, evaluated with
`latinLowerCase`) `rl.prompt()` is called four times in all, twice of them after the final
messages. -/
theorem playCmd_prompts (toLowerCase : String → String) (r : ℚ) :
    playCmd latinLowerCase (.ok [⟨1, "Capital de Italia", "Roma"⟩])
        [⟨1, "Capital de Italia", "Roma"⟩] [⟨r, "roma"⟩] =
      { toBeResolved := [], score := 1, status := .won, asked := [(1, true)],
        out := [.prompt,
          .question "Capital de Italia? ",
          .prompt,
          .biglog "CORRECTO" "green",
          .log "Número de aciertos: 1" none,
          .log "Enhorabuena, has terminado el juego\n" (some "green"),
          .log "Número de aciertos: " none,
          .biglog "1" "magenta",
          .prompt,
          .prompt] } ∧
    promptCount (playCmd latinLowerCase (.ok [⟨1, "Capital de Italia", "Roma"⟩])
      [⟨1, "Capital de Italia", "Roma"⟩] [⟨r, "roma"⟩]).out = 4 ∧
    (playCmd toLowerCase (.ok [⟨1, "Capital de Italia", "Roma"⟩])
      [⟨1, "Capital de Italia", "Roma"⟩] [⟨r, "roma"⟩]).out.take 3 =
      [.prompt, .question "Capital de Italia? ", .prompt] := by
  have hc : count [(⟨1, "Capital de Italia", "Roma"⟩ : Quiz)] = 1 := rfl
  have h0 : playOne (load (.ok [⟨1, "Capital de Italia", "Roma"⟩])) [.prompt] =
      { toBeResolved := [1], score := 0, status := .playing, asked := [],
        out := [.prompt] } := by decide
  have h : playCmd latinLowerCase (.ok [⟨1, "Capital de Italia", "Roma"⟩])
        [⟨1, "Capital de Italia", "Roma"⟩] [⟨r, "roma"⟩] =
      { toBeResolved := [], score := 1, status := .won, asked := [(1, true)],
        out := [.prompt, .question "Capital de Italia? ", .prompt, .biglog "CORRECTO" "green",
          .log "Número de aciertos: 1" none,
          .log "Enhorabuena, has terminado el juego\n" (some "green"),
          .log "Número de aciertos: " none, .biglog "1" "magenta", .prompt, .prompt] } := by
    simp only [playCmd, List.foldl_cons, List.foldl_nil]
    rw [h0]
    simp only [resume, hc, draw_one]
    decide
  rw [h]
  refine ⟨rfl, by decide, ?_⟩
  have hf : findByPk [(⟨1, "Capital de Italia", "Roma"⟩ : Quiz)] 1 =
      some ⟨1, "Capital de Italia", "Roma"⟩ := by decide
  simp only [playCmd, List.foldl_cons, List.foldl_nil]
  rw [h0]
  simp only [resume, hc, draw_one, validateId_num, hf]
  by_cases hok : isCorrect toLowerCase (trim "roma") "Roma" = true
  · simp [hok, playOne]
  · simp [hok]

/-- C10 on a table with the ids 1 and 3 (quiz 2 was deleted): the ids are distinct and positive
and 3 is to be resolved, but the row count is 2 and no value of `Math.random()` makes the
candidate equal to 3. -/
theorem draw_never_reaches_gap_id :
    ([(⟨1, "Capital de Italia", "Roma"⟩ : Quiz), ⟨3, "Capital de Francia", "París"⟩].map
        Quiz.id).Nodup ∧
    (∀ q ∈ [(⟨1, "Capital de Italia", "Roma"⟩ : Quiz), ⟨3, "Capital de Francia", "París"⟩],
      0 < q.id) ∧
    (3 : Int) ∈ (playCmd latinLowerCase
        (.ok [⟨1, "Capital de Italia", "Roma"⟩, ⟨3, "Capital de Francia", "París"⟩])
        [⟨1, "Capital de Italia", "Roma"⟩, ⟨3, "Capital de Francia", "París"⟩] []).toBeResolved ∧
    ¬ ∃ r : ℚ, 0 ≤ r ∧ r < 1 ∧
      draw r (count [⟨1, "Capital de Italia", "Roma"⟩,
        ⟨3, "Capital de Francia", "París"⟩]) = 3 := by
  refine ⟨by decide, by decide, by decide, ?_⟩
  rintro ⟨r, h0, h1, h⟩
  have hle := (draw_le r 2 h0 h1 (by norm_num)).2
  have hc : count [(⟨1, "Capital de Italia", "Roma"⟩ : Quiz),
      ⟨3, "Capital de Francia", "París"⟩] = 2 := rfl
  rw [hc] at h
  rw [h] at hle
  norm_num at hle

end QuizCmds
